import Mathlib

/-!
Verification of the list-editing key-handling core of the repository
(module list/listediting): the Enter/Backspace decision logic, the
list-identity predicates and the sibling walker, embedded shallowly.

Model notes.
A document is an ordered sequence of sibling block elements under the
root.  A block element is modelled by the record Block below: its element
name, the three list attributes (each optional, mirroring the host
model's attribute bag where an absent attribute reads as undefined), the
emptiness flag of the element, and a numeric ref tag standing for
JavaScript object identity (two distinct sibling objects carry distinct
ref tags, so structural equality of Block values coincides with
reference equality whenever ref tags are pairwise distinct).

A cursor position inside a block is modelled as a zipper over the
sibling sequence: the siblings strictly before the cursor block (in
document order), the cursor block itself, and the siblings strictly
after it.

TreeWalker semantics used by findListBlocksInListItem: the walker is
created with shallow and ignoreElementEnd set, starting at a position
inside the cursor block.  Walking backward, the first value emitted is
the elementStart of the cursor block itself (the walker leaves the block
through its opening tag), followed by one elementStart value per
preceding sibling, nearest first; walking forward, the elementEnd of the
cursor block is suppressed by ignoreElementEnd and the walker then emits
one elementStart value per following sibling, nearest first, jumping
over each because of shallow.  Both runs end at the root boundary.  The
source then keeps only element items and filters them by strict equality
of the listItemId attribute with the cursor block's attribute; under
JavaScript strict equality two absent attributes (undefined) compare
equal, which the Option beq below reproduces.
-/

/-- A sibling block element of the document model, restricted to the data the
list feature reads: element name, the three list attributes, whether the
element is empty, and a tag modelling object identity. -/
structure Block where
  name : String
  listItemId : Option String
  listIndent : Option Nat
  listType : Option String
  isEmpty : Bool
  ref : Nat
deriving DecidableEq, Repr

/-- Embedding of areRepresentingSameList( blockA, blockB ).  In the source the
second argument is a possibly-null previous sibling, checked first; the first
argument is always an element at the call sites.  The attribute comparison is
JavaScript strict equality on the listItemId attributes, under which two
absent attributes compare equal. -/
def areRepresentingSameList (blockA : Block) (blockB : Option Block) : Bool :=
  match blockB with
  | none => false
  | some b => blockA.listItemId == b.listItemId

/-- Embedding of isListBlock( element ): hasAttribute on listItemId, true
whenever the attribute is set, whatever its value. -/
def isListBlock (element : Block) : Bool :=
  element.listItemId.isSome

/-- Embedding of findListBlocksInListItem( position ) for a cursor position
inside the block parent, with before/after the preceding/following siblings in
document order.  Per the TreeWalker semantics described above, the backward
run visits parent then the preceding siblings nearest first, the forward run
visits the following siblings nearest first; each run is filtered by strict
equality of listItemId with parent's attribute, and the result is the reversed
backward run followed by the forward run. -/
def findListBlocksInListItem (before : List Block) (parent : Block) (after : List Block) :
    List Block :=
  let listItemId := parent.listItemId
  ((parent :: before.reverse).filter (fun e => e.listItemId == listItemId)).reverse
    ++ after.filter (fun e => e.listItemId == listItemId)

/-- The walker algorithm as the specification words it: two one-directional
scans over the immediate siblings, each stopping at the first sibling whose
listItemId differs from, or is absent relative to, the cursor block's; the
results are concatenated as the reversed backward run followed by the forward
run. -/
def specSameIdScan (pid : Option String) (siblings : List Block) : List Block :=
  siblings.takeWhile (fun e => e.listItemId.isSome && e.listItemId == pid)

/-- The specification's description of findItemBlocks, assembled from the two
stop-at-first-mismatch scans of specSameIdScan. -/
def specFindItemBlocks (before : List Block) (parent : Block) (after : List Block) :
    List Block :=
  (specSameIdScan parent.listItemId (parent :: before.reverse)).reverse
    ++ specSameIdScan parent.listItemId after

/-- The model mutation, or command invocation, a key handler decides on. -/
inductive ListKeyAction where
  | noop
  | setListItemId (newId : String)
  | outdentList
deriving DecidableEq, Repr

/-- Outcome of one key-handler invocation: the chosen action, whether
data.preventDefault() was called and whether evt.stop() was called. -/
structure HandlerResult where
  action : ListKeyAction
  preventedDefault : Bool
  stopped : Bool
deriving DecidableEq, Repr

/-- The state an Enter keypress is evaluated against: whether the document
selection is collapsed, and the zipper of the block containing the selection's
last position among its siblings. -/
structure EnterState where
  selectionCollapsed : Bool
  before : List Block
  parent : Block
  after : List Block
deriving Repr

/-- Embedding of the callback returned by getEnterHandlingCallback( editor ).
The uidValue argument models the value produced by the uid() generator via
ListEditing._getElementUniqueId().  The callback returns early on a
non-collapsed selection, a non-empty position parent, or a parent that is not
a list block; otherwise it computes the walker result, and either assigns the
fresh listItemId (when the parent and its previous sibling represent the same
list and the parent is the last walker block), or outdents (when the walker
returned a single block); preventDefault and stop are called exactly when one
of the two branches applied. -/
def getEnterHandlingCallback (uidValue : String) (st : EnterState) : HandlerResult :=
  if st.selectionCollapsed = false then ⟨.noop, false, false⟩
  else if st.parent.isEmpty = false then ⟨.noop, false, false⟩
  else if isListBlock st.parent = false then ⟨.noop, false, false⟩
  else
    let allBlockItems := findListBlocksInListItem st.before st.parent st.after
    let lastBlockItem := allBlockItems.getLast?
    if areRepresentingSameList st.parent st.before.getLast? = true
        ∧ lastBlockItem = some st.parent then
      ⟨.setListItemId uidValue, true, true⟩
    else if allBlockItems.length = 1 then
      ⟨.outdentList, true, true⟩
    else
      ⟨.noop, false, false⟩

/-- The state a Delete/Backspace keypress is evaluated against: the key
direction, whether the selection is collapsed, whether the selection's first
position is at the start of its parent, and the zipper of that parent among
its siblings. -/
structure DeleteState where
  direction : String
  selectionCollapsed : Bool
  firstPositionIsAtStart : Bool
  before : List Block
  parent : Block
  after : List Block
deriving Repr

/-- Embedding of the callback returned by getDeleteHandlingCallback( editor ).
It returns early unless the direction is backward, the selection is collapsed,
the first position is at the start of a parent whose element name is listItem,
and the previous sibling is not itself named listItem; otherwise it executes
outdentList, prevents the default action and stops the event. -/
def getDeleteHandlingCallback (st : DeleteState) : HandlerResult :=
  if st.direction ≠ "backward" then ⟨.noop, false, false⟩
  else if st.selectionCollapsed = false then ⟨.noop, false, false⟩
  else if st.firstPositionIsAtStart = false then ⟨.noop, false, false⟩
  else if st.parent.name ≠ "listItem" then ⟨.noop, false, false⟩
  else if (match st.before.getLast? with
           | some prev => prev.name == "listItem"
           | none => false) = true then ⟨.noop, false, false⟩
  else ⟨.outdentList, true, true⟩

/-- Modelled from the spec: the backward direction of the IndentCommand
registered as outdentList is imported from module list/indentcommand, whose
source is not part of this repository snapshot.  Section 4.3 of the
specification defines it on the affected block: it decreases listIndent by
one, and when the result would go below zero it instead removes list
membership entirely, clearing listItemId, listIndent and listType and leaving
a plain paragraph. -/
def outdentBlock (b : Block) : Block :=
  match b.listIndent with
  | some 0 => { b with listItemId := none, listIndent := none, listType := none }
  | some (n + 1) => { b with listIndent := some n }
  | none => b

/-- Modelled from the spec: the forward direction of the IndentCommand
registered as indentList is imported from module list/indentcommand, whose
source is not part of this repository snapshot.  Section 4.3 of the
specification defines it on the affected block: it increases listIndent by
one, subject to a maximum of the previous sibling's indent plus one. -/
def indentForwardBlock (prevSibling : Option Block) (b : Block) : Block :=
  match b.listIndent with
  | none => b
  | some n =>
    match prevSibling with
    | none => { b with listIndent := some (n + 1) }
    | some p =>
      match p.listIndent with
      | none => { b with listIndent := some (n + 1) }
      | some m => { b with listIndent := some (min (n + 1) (m + 1)) }

/-- The document (sibling sequence) after the Enter callback ran, applying the
decided action: the fresh-identity branch performs the single
writer.setAttribute of listItemId on the position parent; the outdent branch
applies the (spec-modelled) outdentBlock to the position parent; otherwise the
document is untouched. -/
def applyEnterHandler (uidValue : String) (st : EnterState) : List Block :=
  match (getEnterHandlingCallback uidValue st).action with
  | .setListItemId v => st.before ++ { st.parent with listItemId := some v } :: st.after
  | .outdentList => st.before ++ outdentBlock st.parent :: st.after
  | .noop => st.before ++ st.parent :: st.after

/-- The blocks of a list satisfying q form one contiguous run inside l: l
splits as a q-free segment, a q-true segment and a q-free segment.  This is
the contiguity invariant of section 3 of the specification, instantiated with
q as sharing a given listItemId. -/
def ContiguousRun (q : Block → Bool) (l : List Block) : Prop :=
  ∃ a b c, l = a ++ b ++ c
    ∧ (∀ x ∈ a, q x = false) ∧ (∀ x ∈ b, q x = true) ∧ (∀ x ∈ c, q x = false)

/-! Helper lemmas. -/

lemma filter_eq_nil_of_forall_false {q : Block → Bool} {l : List Block}
    (h : ∀ x ∈ l, q x = false) : l.filter q = [] := by
  rw [List.filter_eq_nil_iff]
  intro a ha
  simp [h a ha]

lemma filter_eq_self_of_forall_true {q : Block → Bool} {l : List Block}
    (h : ∀ x ∈ l, q x = true) : l.filter q = l :=
  List.filter_eq_self.mpr h

lemma takeWhile_eq_nil_of_forall_false {q : Block → Bool} {l : List Block}
    (h : ∀ x ∈ l, q x = false) : l.takeWhile q = [] := by
  cases l with
  | nil => rfl
  | cons x xs =>
    have hx : q x = false := h x (List.mem_cons_self x xs)
    simp [List.takeWhile_cons, hx]

lemma takeWhile_append_of_forall_true {q : Block → Bool} {l m : List Block}
    (h : ∀ x ∈ l, q x = true) : (l ++ m).takeWhile q = l ++ m.takeWhile q := by
  induction l with
  | nil => rfl
  | cons x xs ih =>
    have hx : q x = true := h x (List.mem_cons_self x xs)
    simp [List.takeWhile_cons, hx]
    exact ih fun y hy => h y (List.mem_cons_of_mem x hy)

/-- The walker result rewritten as a single pass: the same-id blocks before
the cursor block, the cursor block itself, then the same-id blocks after it. -/
lemma findListBlocksInListItem_eq (before : List Block) (parent : Block) (after : List Block) :
    findListBlocksInListItem before parent after
      = before.filter (fun e => e.listItemId == parent.listItemId)
          ++ parent :: after.filter (fun e => e.listItemId == parent.listItemId) := by
  simp [findListBlocksInListItem, List.filter_reverse]

/-- The Enter callback produces one of exactly three results. -/
lemma enterHandler_cases (uidValue : String) (st : EnterState) :
    getEnterHandlingCallback uidValue st = ⟨.noop, false, false⟩
      ∨ getEnterHandlingCallback uidValue st = ⟨.setListItemId uidValue, true, true⟩
      ∨ getEnterHandlingCallback uidValue st = ⟨.outdentList, true, true⟩ := by
  unfold getEnterHandlingCallback
  dsimp only
  split
  · exact Or.inl rfl
  split
  · exact Or.inl rfl
  split
  · exact Or.inl rfl
  split
  · exact Or.inr (Or.inl rfl)
  split
  · exact Or.inr (Or.inr rfl)
  · exact Or.inl rfl

/-- The Delete callback produces one of exactly two results. -/
lemma deleteHandler_cases (st : DeleteState) :
    getDeleteHandlingCallback st = ⟨.noop, false, false⟩
      ∨ getDeleteHandlingCallback st = ⟨.outdentList, true, true⟩ := by
  unfold getDeleteHandlingCallback
  split
  · exact Or.inl rfl
  split
  · exact Or.inl rfl
  split
  · exact Or.inl rfl
  split
  · exact Or.inl rfl
  split
  · exact Or.inl rfl
  · exact Or.inr rfl

/-- A contiguous run around a block satisfying q localizes: the q-blocks of
the preceding siblings form a suffix of them, and the q-blocks of the
following siblings form an initial segment of them. -/
lemma contiguousRun_split {q : Block → Bool} {before after : List Block} {parent : Block}
    (hp : q parent = true)
    (h : ContiguousRun q (before ++ parent :: after)) :
    (∃ a1 b1, before = a1 ++ b1 ∧ (∀ x ∈ a1, q x = false) ∧ (∀ x ∈ b1, q x = true))
      ∧ (∃ b2 c2, after = b2 ++ c2 ∧ (∀ x ∈ b2, q x = true) ∧ (∀ x ∈ c2, q x = false)) := by
  obtain ⟨a, b, c, hE, ha, hb, hc⟩ := h
  rw [List.append_assoc] at hE
  rcases List.append_eq_append_iff.mp hE with ⟨w, hw1, hw2⟩ | ⟨w, hw1, hw2⟩
  · refine ⟨⟨before, [], by simp, ?_, by simp⟩, ?_⟩
    · intro x hx
      exact ha x (by rw [hw1]; exact List.mem_append_left w hx)
    · cases w with
      | cons pw w' =>
        exfalso
        have hpw : parent = pw := by
          have := congrArg List.head? hw2
          simpa using this
        have hmem : parent ∈ a := by
          rw [hw1, hpw]
          exact List.mem_append_right before (List.mem_cons_self pw w')
        rw [ha parent hmem] at hp
        exact Bool.false_ne_true hp
      | nil =>
        simp only [List.nil_append] at hw2
        cases b with
        | nil =>
          exfalso
          simp only [List.nil_append] at hw2
          have hmem : parent ∈ c := by rw [← hw2]; exact List.mem_cons_self parent after
          rw [hc parent hmem] at hp
          exact Bool.false_ne_true hp
        | cons pb b' =>
          have hpb : parent = pb := by
            have := congrArg List.head? hw2
            simpa using this
          have hafter : after = b' ++ c := by
            have := congrArg List.tail hw2
            simpa using this
          refine ⟨b', c, hafter, ?_, hc⟩
          intro x hx
          exact hb x (List.mem_cons_of_mem pb hx)
  · rcases List.append_eq_append_iff.mp hw2 with ⟨z, hz1, hz2⟩ | ⟨z, hz1, hz2⟩
    · exfalso
      have hmem : parent ∈ c := by
        rw [hz2]
        exact List.mem_append_right z (List.mem_cons_self parent after)
      rw [hc parent hmem] at hp
      exact Bool.false_ne_true hp
    · refine ⟨⟨a, w, hw1, ha, ?_⟩, ?_⟩
      · intro x hx
        exact hb x (by rw [hz1]; exact List.mem_append_left z hx)
      · cases z with
        | nil =>
          exfalso
          simp only [List.nil_append] at hz2
          have hmem : parent ∈ c := by rw [← hz2]; exact List.mem_cons_self parent after
          rw [hc parent hmem] at hp
          exact Bool.false_ne_true hp
        | cons pz z' =>
          have hafter : after = z' ++ c := by
            have := congrArg List.tail hz2
            simpa using this
          refine ⟨z', c, hafter, ?_, hc⟩
          intro x hx
          exact hb x (by rw [hz1]; exact List.mem_append_right w (List.mem_cons_of_mem pz hx))

/-- C4: for a cursor position inside a block carrying a listItemId, in a
document where the blocks sharing that listItemId form a contiguous run (the
contiguity invariant the Walker assumes), findListBlocksInListItem returns
exactly the result of the two stop-at-first-mismatch directional scans the
specification describes, concatenated as reversed backward run plus forward
run; equivalently, the same-identity run in original document order including
the cursor block itself. -/
theorem walker_matches_spec_scans (before after : List Block) (parent : Block)
    (hid : parent.listItemId.isSome = true)
    (hcontig : ContiguousRun (fun e => e.listItemId == parent.listItemId)
      (before ++ parent :: after)) :
    findListBlocksInListItem before parent after = specFindItemBlocks before parent after
      ∧ findListBlocksInListItem before parent after
          = (before ++ parent :: after).filter (fun e => e.listItemId == parent.listItemId) := by
  set q : Block → Bool := fun e => e.listItemId == parent.listItemId with hq
  have hqp : q parent = true := by simp [hq]
  have hpred : (fun e => e.listItemId.isSome && (e.listItemId == parent.listItemId)) = q := by
    funext e
    by_cases he : e.listItemId = parent.listItemId
    · obtain ⟨s, hs⟩ := Option.isSome_iff_exists.mp hid
      simp [hq, he, hs]
    · have : (e.listItemId == parent.listItemId) = false := by
        simpa using he
      simp [hq, this]
  obtain ⟨⟨a1, b1, hb, ha1, hb1⟩, ⟨b2, c2, hasp, hb2, hc2⟩⟩ := contiguousRun_split hqp hcontig
  have hfilter_before : before.filter q = b1 := by
    rw [hb, List.filter_append, filter_eq_nil_of_forall_false ha1,
      filter_eq_self_of_forall_true hb1, List.nil_append]
  have hfilter_after : after.filter q = b2 := by
    rw [hasp, List.filter_append, filter_eq_nil_of_forall_false hc2,
      filter_eq_self_of_forall_true hb2, List.append_nil]
  have htake_before : before.reverse.takeWhile q = b1.reverse := by
    rw [hb, List.reverse_append,
      takeWhile_append_of_forall_true (fun x hx => hb1 x (List.mem_reverse.mp hx)),
      takeWhile_eq_nil_of_forall_false (fun x hx => ha1 x (List.mem_reverse.mp hx)),
      List.append_nil]
  have htake_after : after.takeWhile q = b2 := by
    rw [hasp, takeWhile_append_of_forall_true hb2, takeWhile_eq_nil_of_forall_false hc2,
      List.append_nil]
  have hcode : findListBlocksInListItem before parent after = b1 ++ parent :: b2 := by
    rw [findListBlocksInListItem_eq, ← hq, hfilter_before, hfilter_after]
  constructor
  · rw [hcode]
    unfold specFindItemBlocks specSameIdScan
    rw [hpred, List.takeWhile_cons_of_pos hqp, htake_after, List.reverse_cons, htake_before,
      List.reverse_reverse]
    simp
  · rw [hcode, List.filter_append, List.filter_cons_of_pos hqp, hfilter_before,
      hfilter_after]

/-- Witness for walker_matches_spec_scans: a three-block list item with the
cursor in the middle block; the walker returns the three blocks in document
order, as the specification's scans do. -/
theorem walker_matches_spec_scans_witness :
    (let b1 : Block := ⟨"paragraph", some "x", some 0, some "bulleted", false, 1⟩
     let b2 : Block := ⟨"paragraph", some "x", some 0, some "bulleted", false, 2⟩
     let b3 : Block := ⟨"paragraph", some "x", some 0, some "bulleted", false, 3⟩
     findListBlocksInListItem [b1] b2 [b3] = specFindItemBlocks [b1] b2 [b3]
       ∧ findListBlocksInListItem [b1] b2 [b3]
           = ([b1] ++ b2 :: [b3]).filter (fun e => e.listItemId == b2.listItemId)) := by
  refine walker_matches_spec_scans _ _ _ (by decide) ?_
  exact ⟨[], [⟨"paragraph", some "x", some 0, some "bulleted", false, 1⟩,
    ⟨"paragraph", some "x", some 0, some "bulleted", false, 2⟩,
    ⟨"paragraph", some "x", some 0, some "bulleted", false, 3⟩], [],
    by decide, by decide, by decide, by decide⟩

lemma mem_of_getLast?_eq_some {l : List Block} {a : Block} (h : l.getLast? = some a) :
    a ∈ l := by
  rw [List.getLast?_eq_head?_reverse] at h
  have := List.mem_of_mem_head? h
  simpa using this

/-- C1: the fresh-identity Enter branch fires exactly when the selection is
collapsed, the cursor block is empty, it is a list block, it is the last block
of its list item as computed by the walker, and it represents the same list as
its previous sibling; the fired action writes the uid value as the new
listItemId of the cursor block. -/
theorem enter_fresh_identity_iff (uidValue : String) (st : EnterState) :
    (getEnterHandlingCallback uidValue st).action = ListKeyAction.setListItemId uidValue ↔
      (st.selectionCollapsed = true ∧ st.parent.isEmpty = true ∧ isListBlock st.parent = true
        ∧ areRepresentingSameList st.parent st.before.getLast? = true
        ∧ (findListBlocksInListItem st.before st.parent st.after).getLast? = some st.parent) := by
  cases hsc : st.selectionCollapsed with
  | false => simp [getEnterHandlingCallback, hsc]
  | true =>
    cases hie : st.parent.isEmpty with
    | false => simp [getEnterHandlingCallback, hsc, hie]
    | true =>
      cases hlb : isListBlock st.parent with
      | false => simp [getEnterHandlingCallback, hsc, hie, hlb]
      | true =>
        by_cases hb1 : areRepresentingSameList st.parent st.before.getLast? = true
            ∧ (findListBlocksInListItem st.before st.parent st.after).getLast? = some st.parent
        · simp [getEnterHandlingCallback, hsc, hie, hlb, hb1]
        · by_cases h2 : (findListBlocksInListItem st.before st.parent st.after).length = 1
          · simp [getEnterHandlingCallback, hsc, hie, hlb, hb1, h2]
          · simp [getEnterHandlingCallback, hsc, hie, hlb, hb1, h2]

/-- C2: on Enter with a collapsed selection in an empty list block whose item
consists of that block alone (the walker returns a singleton), the handler
invokes the outdent command, and the (spec-modelled) outdent of a block at
indent zero clears listItemId, listIndent and listType, leaving a plain
paragraph. -/
theorem enter_outdents_single_block_item (uidValue : String) (st : EnterState)
    (hsc : st.selectionCollapsed = true) (hie : st.parent.isEmpty = true)
    (hlb : isListBlock st.parent = true)
    (hone : (findListBlocksInListItem st.before st.parent st.after).length = 1) :
    (getEnterHandlingCallback uidValue st).action = ListKeyAction.outdentList
      ∧ (st.parent.listIndent = some 0 →
          (outdentBlock st.parent).listItemId = none
            ∧ (outdentBlock st.parent).listIndent = none
            ∧ (outdentBlock st.parent).listType = none) := by
  refine ⟨?_, ?_⟩
  · have hfilters : st.before.filter (fun e => e.listItemId == st.parent.listItemId) = [] := by
      rw [findListBlocksInListItem_eq] at hone
      simp only [List.length_append, List.length_cons] at hone
      have : (st.before.filter (fun e => e.listItemId == st.parent.listItemId)).length = 0 := by
        omega
      exact List.length_eq_zero.mp this
    have hb1 : areRepresentingSameList st.parent st.before.getLast? = false := by
      cases hlast : st.before.getLast? with
      | none => simp [areRepresentingSameList]
      | some prev =>
        by_contra hne
        have htrue : (st.parent.listItemId == prev.listItemId) = true := by
          cases hv : st.parent.listItemId == prev.listItemId
          · exact absurd (by simp [areRepresentingSameList, hv]) hne
          · rfl
        have hq : (prev.listItemId == st.parent.listItemId) = true := by
          rw [beq_iff_eq.mp htrue]
          simp
        have hmem : prev ∈ st.before.filter (fun e => e.listItemId == st.parent.listItemId) :=
          List.mem_filter.mpr ⟨mem_of_getLast?_eq_some hlast, hq⟩
        rw [hfilters] at hmem
        exact List.not_mem_nil prev hmem
    simp [getEnterHandlingCallback, hsc, hie, hlb, hb1, hone]
  · intro h0
    simp [outdentBlock, h0]

/-- Witness for enter_outdents_single_block_item: a document holding one empty
list block at indent zero with identity a; Enter outdents it into a plain
paragraph. -/
theorem enter_outdents_single_block_item_witness :
    (getEnterHandlingCallback "u"
        ⟨true, [], ⟨"paragraph", some "a", some 0, some "bulleted", true, 0⟩, []⟩).action
        = ListKeyAction.outdentList
      ∧ ((⟨"paragraph", some "a", some 0, some "bulleted", true, 0⟩ : Block).listIndent = some 0 →
          (outdentBlock ⟨"paragraph", some "a", some 0, some "bulleted", true, 0⟩).listItemId = none
            ∧ (outdentBlock ⟨"paragraph", some "a", some 0, some "bulleted", true, 0⟩).listIndent = none
            ∧ (outdentBlock ⟨"paragraph", some "a", some 0, some "bulleted", true, 0⟩).listType = none) := by
  have h := enter_outdents_single_block_item "u"
    ⟨true, [], ⟨"paragraph", some "a", some 0, some "bulleted", true, 0⟩, []⟩
    (by decide) (by decide) (by decide) (by decide)
  exact ⟨h.1, fun _ => h.2 (by decide)⟩

/-- C5 counterexample: two blocks that both lack a listItemId attribute are
reported as representing the same list, where the claim requires false
whenever either block lacks the attribute. -/
theorem sameList_missing_id_counterexample :
    (⟨"paragraph", none, none, none, true, 0⟩ : Block).listItemId = none
      ∧ (⟨"paragraph", none, none, none, true, 1⟩ : Block).listItemId = none
      ∧ areRepresentingSameList ⟨"paragraph", none, none, none, true, 0⟩
          (some ⟨"paragraph", none, none, none, true, 1⟩) = true := by
  decide

/-- C5 amended: areRepresentingSameList is false when the second block is
null, and otherwise compares the listItemId attributes under strict equality,
where two absent attributes compare equal; on non-null arguments it is
symmetric, and it is a pure function of its arguments. -/
theorem sameList_amended (a b : Block) :
    areRepresentingSameList a none = false
      ∧ areRepresentingSameList a (some b) = (a.listItemId == b.listItemId)
      ∧ areRepresentingSameList a (some b) = areRepresentingSameList b (some a) := by
  refine ⟨rfl, rfl, ?_⟩
  simp only [areRepresentingSameList]
  cases ha : a.listItemId <;> cases hb : b.listItemId <;> simp [BEq.comm]

/-- C6 counterexample: a block whose listItemId attribute is present but holds
the empty string is reported as a list block, where the claim requires a
non-empty listItemId. -/
theorem isListBlock_empty_id_counterexample :
    isListBlock ⟨"paragraph", some "", none, none, true, 0⟩ = true
      ∧ (⟨"paragraph", some "", none, none, true, 0⟩ : Block).listItemId = some "" := by
  decide

/-- C6 amended: isListBlock is true exactly when the listItemId attribute is
present, whatever its value, the empty string included. -/
theorem isListBlock_amended (b : Block) : isListBlock b = b.listItemId.isSome :=
  rfl

/-- C3 counterexample: Backspace, collapsed selection, caret at the absolute
start of a block that carries a listItemId (a list block in the
specification's sense) with no preceding sibling at all; the claim requires
the outdent branch to fire, but the handler does nothing because the block's
element name is not listItem. -/
theorem backspace_claim_counterexample :
    isListBlock ⟨"paragraph", some "x", some 0, some "bulleted", true, 0⟩ = true
      ∧ getDeleteHandlingCallback
          ⟨"backward", true, true, [],
            ⟨"paragraph", some "x", some 0, some "bulleted", true, 0⟩, []⟩
          = ⟨ListKeyAction.noop, false, false⟩ := by
  decide

/-- C3 amended: the Backspace handler invokes outdent (with preventDefault and
stop) exactly when the direction is backward, the selection is collapsed, the
caret is at the absolute start of a block whose element name is listItem, and
no preceding sibling has element name listItem; in every other state it
returns the untouched no-op result. -/
theorem backspace_outdent_iff (st : DeleteState) :
    (getDeleteHandlingCallback st = ⟨ListKeyAction.outdentList, true, true⟩ ↔
      (st.direction = "backward" ∧ st.selectionCollapsed = true
        ∧ st.firstPositionIsAtStart = true ∧ st.parent.name = "listItem"
        ∧ ∀ prev, st.before.getLast? = some prev → prev.name ≠ "listItem"))
    ∧ (getDeleteHandlingCallback st = ⟨ListKeyAction.noop, false, false⟩
        ∨ getDeleteHandlingCallback st = ⟨ListKeyAction.outdentList, true, true⟩) := by
  refine ⟨?_, deleteHandler_cases st⟩
  by_cases h1 : st.direction = "backward"
  · cases h2 : st.selectionCollapsed with
    | false => simp [getDeleteHandlingCallback, h1, h2]
    | true =>
      cases h3 : st.firstPositionIsAtStart with
      | false => simp [getDeleteHandlingCallback, h1, h2, h3]
      | true =>
        by_cases h4 : st.parent.name = "listItem"
        · cases hlast : st.before.getLast? with
          | none => simp [getDeleteHandlingCallback, h1, h2, h3, h4, hlast]
          | some prev =>
            by_cases h5 : prev.name = "listItem"
            · simp [getDeleteHandlingCallback, h1, h2, h3, h4, hlast, h5]
            · simp [getDeleteHandlingCallback, h1, h2, h3, h4, hlast, h5]
        · simp [getDeleteHandlingCallback, h1, h2, h3, h4]
  · simp [getDeleteHandlingCallback, h1]

/-- C10: the Backspace handler is element-name based.  It does nothing when
the cursor block's element name is not listItem, whatever its attributes; it
does nothing when the previous sibling's element name is listItem, whatever
that sibling's attributes; and its whole result is a function of the key
direction, the selection flags and the element names alone, invariant under
any change to the listItemId, listIndent or listType attributes. -/
theorem backspace_element_name_only :
    (∀ st : DeleteState, st.parent.name ≠ "listItem" →
        getDeleteHandlingCallback st = ⟨ListKeyAction.noop, false, false⟩)
      ∧ (∀ (st : DeleteState) (prev : Block), st.before.getLast? = some prev →
          prev.name = "listItem" →
          getDeleteHandlingCallback st = ⟨ListKeyAction.noop, false, false⟩)
      ∧ (∀ st st' : DeleteState,
          st.direction = st'.direction →
          st.selectionCollapsed = st'.selectionCollapsed →
          st.firstPositionIsAtStart = st'.firstPositionIsAtStart →
          st.parent.name = st'.parent.name →
          st.before.getLast?.map Block.name = st'.before.getLast?.map Block.name →
          getDeleteHandlingCallback st = getDeleteHandlingCallback st') := by
  refine ⟨?_, ?_, ?_⟩
  · intro st hname
    unfold getDeleteHandlingCallback
    split_ifs <;> simp_all
  · intro st prev hlast hname
    unfold getDeleteHandlingCallback
    split_ifs <;> simp_all
  · intro st st' hdir hcol hstart hname hprev
    unfold getDeleteHandlingCallback
    rw [hdir, hcol, hstart, hname]
    cases hl : st.before.getLast? with
    | none =>
      cases hl' : st'.before.getLast? with
      | none => rfl
      | some p => rw [hl, hl'] at hprev; simp at hprev
    | some p =>
      cases hl' : st'.before.getLast? with
      | none => rw [hl, hl'] at hprev; simp at hprev
      | some p' =>
        rw [hl, hl'] at hprev
        simp only [Option.map_some', Option.some.injEq] at hprev
        simp only [hprev]

/-- Witness for backspace_element_name_only: a listItemId-carrying paragraph
is ignored; a previous sibling named listItem blocks the branch; and two
states differing only in list attributes get the same result. -/
theorem backspace_element_name_only_witness :
    getDeleteHandlingCallback
        ⟨"backward", true, true, [], ⟨"paragraph", some "x", some 0, none, true, 0⟩, []⟩
        = ⟨ListKeyAction.noop, false, false⟩
      ∧ getDeleteHandlingCallback
          ⟨"backward", true, true, [⟨"listItem", none, none, none, false, 1⟩],
            ⟨"listItem", none, some 0, none, true, 0⟩, []⟩
          = ⟨ListKeyAction.noop, false, false⟩
      ∧ getDeleteHandlingCallback
          ⟨"backward", true, true, [], ⟨"listItem", some "x", some 3, some "numbered", true, 0⟩, []⟩
          = getDeleteHandlingCallback
            ⟨"backward", true, true, [], ⟨"listItem", none, none, none, true, 0⟩, []⟩ :=
  ⟨backspace_element_name_only.1 _ (by decide),
    backspace_element_name_only.2.1 _ ⟨"listItem", none, none, none, false, 1⟩
      (by decide) (by decide),
    backspace_element_name_only.2.2 _ _ (by decide) (by decide) (by decide) (by decide)
      (by decide)⟩

/-- C7: when the fresh-identity Enter branch fires on a block whose item
identity is A and the generated uid differs from A (uniqueness of the
generator), the resulting document is the old one with exactly one change: the
cursor block's listItemId now holds the uid value, differing from its old
value, while the block's name, listIndent, listType and identity tag, and
every other block of the document, are untouched. -/
theorem enter_fresh_identity_frame (uidValue A : String) (st : EnterState)
    (hfire : (getEnterHandlingCallback uidValue st).action = ListKeyAction.setListItemId uidValue)
    (hA : st.parent.listItemId = some A) (hfresh : uidValue ≠ A) :
    applyEnterHandler uidValue st
        = st.before ++ { st.parent with listItemId := some uidValue } :: st.after
      ∧ ({ st.parent with listItemId := some uidValue } : Block).listItemId
          ≠ st.parent.listItemId
      ∧ ({ st.parent with listItemId := some uidValue } : Block).name = st.parent.name
      ∧ ({ st.parent with listItemId := some uidValue } : Block).listIndent
          = st.parent.listIndent
      ∧ ({ st.parent with listItemId := some uidValue } : Block).listType = st.parent.listType
      ∧ ({ st.parent with listItemId := some uidValue } : Block).ref = st.parent.ref := by
  refine ⟨?_, ?_, rfl, rfl, rfl, rfl⟩
  · unfold applyEnterHandler
    rw [hfire]
  · simp [hA, hfresh]

/-- Witness for enter_fresh_identity_frame: Enter in the empty continuation
block of a one-item list with identity a; the continuation block gets the
fresh identity u, nothing else changes. -/
theorem enter_fresh_identity_frame_witness :
    applyEnterHandler "u"
        ⟨true, [⟨"paragraph", some "a", some 0, some "bulleted", false, 1⟩],
          ⟨"paragraph", some "a", some 0, some "bulleted", true, 2⟩, []⟩
        = [⟨"paragraph", some "a", some 0, some "bulleted", false, 1⟩]
            ++ ⟨"paragraph", some "u", some 0, some "bulleted", true, 2⟩ :: []
      ∧ (⟨"paragraph", some "u", some 0, some "bulleted", true, 2⟩ : Block).listItemId
          ≠ (⟨"paragraph", some "a", some 0, some "bulleted", true, 2⟩ : Block).listItemId := by
  have h := enter_fresh_identity_frame "u" "a"
    ⟨true, [⟨"paragraph", some "a", some 0, some "bulleted", false, 1⟩],
      ⟨"paragraph", some "a", some 0, some "bulleted", true, 2⟩, []⟩
    (by decide) (by decide) (by decide)
  exact ⟨h.1, h.2.1⟩

/-- C8: both key handlers call preventDefault and stop propagation exactly
when they applied an action; when no action applies they neither suppress the
default behavior nor mutate the document. -/
theorem handlers_prevent_default_iff_applied :
    (∀ (uidValue : String) (st : EnterState),
        ((getEnterHandlingCallback uidValue st).preventedDefault = true
            ↔ (getEnterHandlingCallback uidValue st).action ≠ ListKeyAction.noop)
          ∧ (getEnterHandlingCallback uidValue st).stopped
              = (getEnterHandlingCallback uidValue st).preventedDefault
          ∧ ((getEnterHandlingCallback uidValue st).action = ListKeyAction.noop →
              applyEnterHandler uidValue st = st.before ++ st.parent :: st.after))
      ∧ (∀ st : DeleteState,
          ((getDeleteHandlingCallback st).preventedDefault = true
              ↔ (getDeleteHandlingCallback st).action ≠ ListKeyAction.noop)
            ∧ (getDeleteHandlingCallback st).stopped
                = (getDeleteHandlingCallback st).preventedDefault) := by
  constructor
  · intro uidValue st
    rcases enterHandler_cases uidValue st with h | h | h <;>
      simp [h, applyEnterHandler]
  · intro st
    rcases deleteHandler_cases st with h | h <;> simp [h]

/-- Witness for handlers_prevent_default_iff_applied: an Enter on a
non-collapsed selection applies nothing and leaves the document alone. -/
theorem handlers_prevent_default_iff_applied_witness :
    applyEnterHandler "u" ⟨false, [], ⟨"paragraph", none, none, none, true, 0⟩, []⟩
      = [] ++ (⟨"paragraph", none, none, none, true, 0⟩ : Block) :: [] :=
  (handlers_prevent_default_iff_applied.1 "u"
    ⟨false, [], ⟨"paragraph", none, none, none, true, 0⟩, []⟩).2.2 (by decide)

/-- C9: the spec-modelled forward indent of a block whose previous sibling
carries listIndent m never produces an indent above m plus one: the increment
is capped at one level past the preceding sibling. -/
theorem indent_forward_capped (p b : Block) (n m : Nat)
    (hb : b.listIndent = some n) (hp : p.listIndent = some m) :
    ∀ k, (indentForwardBlock (some p) b).listIndent = some k → k ≤ m + 1 := by
  intro k hk
  simp [indentForwardBlock, hb, hp] at hk
  omega

/-- Witness for indent_forward_capped: both blocks at indent one; the forward
indent yields two, within the cap of the previous sibling's indent plus one. -/
theorem indent_forward_capped_witness :
    (indentForwardBlock (some ⟨"paragraph", some "a", some 1, none, false, 0⟩)
        ⟨"paragraph", some "b", some 1, none, false, 1⟩).listIndent = some 2
      ∧ 2 ≤ 1 + 1 :=
  ⟨by decide,
    indent_forward_capped ⟨"paragraph", some "a", some 1, none, false, 0⟩
      ⟨"paragraph", some "b", some 1, none, false, 1⟩ 1 1 (by decide) (by decide) 2 (by decide)⟩
